import Mathlib

/-!
# gocalc-app: the two HTTP handlers of `main.go`

The program registers two handlers on Go's default `net/http` multiplexer:

* `/`    writes a fixed two-line welcome text;
* `/add` parses the query values `a` and `b` with `strconv.Atoi`, answers
  `400` with a fixed message when either fails to parse, and otherwise
  writes `Результат: <a+b>`.

Go strings are byte sequences, Go's `int` is a 64-bit two's-complement
integer.  The handlers are embedded as pure functions on an explicit
`ResponseWriter` value; the pieces of Go's standard library they call
(`strconv.Atoi`, `url.Values.Get`, `fmt.Fprintf`, `http.Error`) are embedded
from the standard library's source, at the base and bit size the program
uses.
-/

namespace GoCalc

set_option maxRecDepth 100000

/-! ## Bytes and strings -/

/-- A Go `byte`. -/
abbrev Byte := Fin 256

/-- A Go `string`: an immutable sequence of bytes. -/
abbrev GoString := List Byte

/-- The bytes of a string literal of the Go source file (which is UTF-8). -/
def utf8 (s : String) : GoString :=
  s.data.flatMap fun c => (String.utf8EncodeChar c).map fun b => b.val

/-! ## Machine integers -/

/-- Size of Go's `int` on the platform (`strconv.IntSize`). -/
def intSize : Nat := 64

/-- Conversion of a mathematical integer to `int`/`int64`: two's-complement
wrap-around, the result of every Go `int` operation. -/
def wrapInt (x : Int) : Int := (x + 2 ^ 63) % 2 ^ 64 - 2 ^ 63

/-- Conversion of a natural number to `uint64`. -/
def wrapUint64 (x : Nat) : Nat := x % 2 ^ 64

/-- Go's `a + b` on `int`. -/
def addInt (a b : Int) : Int := wrapInt (a + b)

/-- Go's unary `-n` on `int`. -/
def negInt (n : Int) : Int := wrapInt (-n)

/-! ## `strconv` -/

/-- The two sentinel errors a `*strconv.NumError` wraps. -/
inductive NumError where
  | ErrSyntax
  | ErrRange
  deriving DecidableEq, Repr

/-- `lower(c)` of `strconv`: `c | ('x' - 'X')`. -/
def lower (c : Byte) : Nat := c.val ||| 32

/-- The `switch` at the head of the digit loop of `strconv.ParseUint`, with
`base0 = false`: the value `d` of the byte as a digit of some base up to 36,
or `none` for the `default` arm (a syntax error). -/
def digitOf (c : Byte) : Option Nat :=
  if 48 ≤ c.val ∧ c.val ≤ 57 then some (c.val - 48)
  else if 97 ≤ lower c ∧ lower c ≤ 122 then some ((lower c - 97 + 10) % 256)
  else none

/-- The digit loop of `strconv.ParseUint` at base 10 and bit size 64, started
with accumulator `n`.  Returns the pair `(value, err)` of the Go function:
`cutoff` is `maxUint64/10 + 1`, `maxVal` is `1<<64 - 1`. -/
def parseUintLoop : List Byte → Nat → Nat × Option NumError
  | [], n => (n, none)
  | c :: rest, n =>
    match digitOf c with
    | none => (0, some .ErrSyntax)
    | some d =>
      if d ≥ 10 then (0, some .ErrSyntax)
      else if n ≥ (2 ^ 64 - 1) / 10 + 1 then (2 ^ 64 - 1, some .ErrRange)
      else
        let n10 := wrapUint64 (n * 10)
        let n1 := wrapUint64 (n10 + d)
        if n1 < n10 ∨ n1 > 2 ^ 64 - 1 then (2 ^ 64 - 1, some .ErrRange)
        else parseUintLoop rest n1

/-- `strconv.ParseUint(s, 10, 0)`. -/
def ParseUint (s : GoString) : Nat × Option NumError :=
  if s = [] then (0, some .ErrSyntax) else parseUintLoop s 0

/-- `strconv.ParseInt(s, 10, 0)`. -/
def ParseInt (s : GoString) : Int × Option NumError :=
  match s with
  | [] => (0, some .ErrSyntax)
  | c :: rest =>
    let neg := c.val = 45
    let s1 := if c.val = 43 then rest else if c.val = 45 then rest else c :: rest
    let r := ParseUint s1
    if r.2 = some .ErrSyntax then (0, r.2)
    else
      let un := r.1
      let cutoff := 2 ^ (intSize - 1)
      if ¬ neg ∧ un ≥ cutoff then (((cutoff - 1 : Nat) : Int), some .ErrRange)
      else if neg ∧ un > cutoff then (-((cutoff : Nat) : Int), some .ErrRange)
      else
        let n := wrapInt (un : Int)
        (if neg then negInt n else n, none)

/-- The digit loop of the fast path of `strconv.Atoi`.  `none` is the
`syntaxError` return out of the loop. -/
def atoiLoop : List Byte → Int → Option Int
  | [], n => some n
  | ch :: rest, n =>
    let ch1 := (ch.val + 256 - 48) % 256
    if ch1 > 9 then none else atoiLoop rest (wrapInt (wrapInt (n * 10) + (ch1 : Int)))

/-- `strconv.Atoi(s)`, returning the pair `(value, err)`. -/
def Atoi (s : GoString) : Int × Option NumError :=
  let sLen := s.length
  if intSize = 32 ∧ (0 < sLen ∧ sLen < 10) ∨ intSize = 64 ∧ (0 < sLen ∧ sLen < 19) then
    match s with
    | [] => (0, some .ErrSyntax)
    | c :: rest =>
      let signed := c.val = 45 ∨ c.val = 43
      if signed ∧ rest.length < 1 then (0, some .ErrSyntax)
      else
        match atoiLoop (if signed then rest else c :: rest) 0 with
        | none => (0, some .ErrSyntax)
        | some n => (if c.val = 45 then negInt n else n, none)
  else
    let r := ParseInt s
    (wrapInt r.1, r.2)

/-! ## `net/url`, `net/http`, `fmt` -/

/-- Go's `url.Values`: `map[string][]string`.  A key that is absent maps to
the empty slice. -/
abbrev Values := GoString → List GoString

/-- `url.Values.Get`: the first value of the key, or `""`. -/
def Values.Get (v : Values) (key : GoString) : GoString :=
  match v key with
  | [] => []
  | x :: _ => x

/-- The part of `*http.Request` the handlers can read: the parsed query
`r.URL.Query()`. -/
structure Request where
  query : Values

/-- The observable state of an `http.ResponseWriter`: the status line, once
it has been written, and the body bytes written so far. -/
structure ResponseWriter where
  status : Option Nat
  body : GoString
  deriving DecidableEq, Repr

/-- A writer nothing has been written to. -/
def ResponseWriter.fresh : ResponseWriter := ⟨none, []⟩

/-- `w.WriteHeader(code)`: only the first call has an effect. -/
def ResponseWriter.WriteHeader (w : ResponseWriter) (code : Nat) : ResponseWriter :=
  match w.status with
  | none => { w with status := some code }
  | some _ => w

/-- `w.Write(p)`: writes the header with `200` if none was written yet. -/
def ResponseWriter.Write (w : ResponseWriter) (p : GoString) : ResponseWriter :=
  let w1 := w.WriteHeader 200
  { w1 with body := w1.body ++ p }

/-- What the client receives once the handler has returned. -/
structure Response where
  status : Nat
  body : GoString
  deriving DecidableEq, Repr

/-- The server finishes the response; a handler that never wrote a header
gets `200`. -/
def ResponseWriter.finish (w : ResponseWriter) : Response :=
  ⟨w.status.getD 200, w.body⟩

/-- `http.StatusBadRequest`. -/
def StatusBadRequest : Nat := 400

/-- The digit loop of `fmt`'s `fmtInteger` at base 10: the digits of `u` are
put in front of `acc`, least significant first.  The first argument bounds
the number of iterations; `fmtUint` starts it at `u`, which is never
exhausted before `u < 10`. -/
def fmtDigits : Nat → Nat → GoString → GoString
  | 0, u, acc => Fin.ofNat (48 + u) :: acc
  | k + 1, u, acc =>
    if u ≥ 10 then fmtDigits k (u / 10) (Fin.ofNat (48 + (u - u / 10 * 10)) :: acc)
    else Fin.ofNat (48 + u) :: acc

/-- Decimal digits of an unsigned value. -/
def fmtUint (u : Nat) : GoString := fmtDigits u u []

/-- `fmt`'s `fmtInteger` for the verb `%d` without flags on an `int`: the
magnitude in decimal, preceded by `-` for a negative value. -/
def fmtInteger (n : Int) : GoString :=
  if n < 0 then (45 : Byte) :: fmtUint n.natAbs else fmtUint n.natAbs

/-- `fmt.Sprintf` for formats whose only verb is `%d` and that come with
enough operands: every other byte is copied. -/
def Sprintf : GoString → List Int → GoString
  | [], _ => []
  | [c], _ => [c]
  | c :: d :: rest, args =>
    if c.val = 37 ∧ d.val = 100 then
      match args with
      | a :: more => fmtInteger a ++ Sprintf rest more
      | [] => c :: Sprintf (d :: rest) []
    else c :: Sprintf (d :: rest) args

/-- `fmt.Fprintf(w, format, args...)`. -/
def Fprintf (w : ResponseWriter) (format : GoString) (args : List Int) : ResponseWriter :=
  w.Write (Sprintf format args)

/-- `http.Error(w, error, code)`: writes the header with `code`, then the
error text and a newline (`fmt.Fprintln`). -/
def httpError (w : ResponseWriter) (error : GoString) (code : Nat) : ResponseWriter :=
  (w.WriteHeader code).Write (error ++ [10])

/-! ## The handlers of `main.go` -/

/-- The handler registered for `/`. -/
def rootHandler (w : ResponseWriter) (_r : Request) : ResponseWriter :=
  let w := Fprintf w (utf8 "Простое веб-приложение калькулятор!\n") []
  Fprintf w (utf8 "Используйте /add?a=5&b=3 для сложения.\n") []

/-- The handler registered for `/add`. -/
def addHandler (w : ResponseWriter) (r : Request) : ResponseWriter :=
  let (a, errA) := Atoi (r.query.Get (utf8 "a"))
  let (b, errB) := Atoi (r.query.Get (utf8 "b"))
  if errA ≠ none ∨ errB ≠ none then
    httpError w (utf8 "Пожалуйста, предоставьте два корректных числа.") StatusBadRequest
  else
    Fprintf w (utf8 "Результат: %d") [addInt a b]

/-- The response to a request for `/`. -/
def serveRoot (r : Request) : Response := (rootHandler .fresh r).finish

/-- The response to a request for `/add`. -/
def serveAdd (r : Request) : Response := (addHandler .fresh r).finish

/-- A request whose query is `a=x&b=y`. -/
def addRequest (x y : GoString) : Request :=
  ⟨fun k => if k = utf8 "a" then [x] else if k = utf8 "b" then [y] else []⟩

/-! ## The server -/

/-- The two patterns registered on the multiplexer.  `/add` has no trailing
slash, so it matches that path only; `/` matches every other path. -/
inductive Route where
  | root
  | add

/-- The program declares no package-level variable and the handler closures
capture none, so nothing is carried from one request to the next: the state
of the server between two requests is the unit value. -/
abbrev ServerState := Unit

/-- One request served in state `st`: the new state and the response. -/
def serve (st : ServerState) (route : Route) (r : Request) : ServerState × Response :=
  match route with
  | .root => (st, (rootHandler .fresh r).finish)
  | .add => (st, (addHandler .fresh r).finish)

/-- A sequence of requests served one after the other from state `st`: the
responses, in order. -/
def serveAll : ServerState → List (Route × Request) → List Response
  | _, [] => []
  | st, (route, r) :: rest =>
    let (st1, resp) := serve st route r
    resp :: serveAll st1 rest

/-! ## Vocabulary of the specification -/

/-- An ASCII decimal digit. -/
def IsDigit (c : Byte) : Prop := 48 ≤ c.val ∧ c.val ≤ 57

instance (c : Byte) : Decidable (IsDigit c) := by unfold IsDigit; infer_instance

/-- Value of a string of decimal digits read after the digits that gave `n`. -/
def decVal (n : Nat) (cs : GoString) : Nat :=
  cs.foldl (fun m c => m * 10 + (c.val - 48)) n

/-- What is left of a query value once one leading `+` or `-` is removed. -/
def digitsPart : GoString → GoString
  | [] => []
  | c :: rest => if c.val = 43 ∨ c.val = 45 then rest else c :: rest

/-- A decimal numeral: an optional single leading `+` or `-` followed by one
or more ASCII decimal digits. -/
def IsNumeral (s : GoString) : Prop :=
  digitsPart s ≠ [] ∧ ∀ c ∈ digitsPart s, IsDigit c

instance (s : GoString) : Decidable (IsNumeral s) := by unfold IsNumeral; infer_instance

/-- The integer a decimal numeral denotes. -/
def numeralValue : GoString → Int
  | [] => 0
  | c :: rest =>
    if c.val = 45 then -((decVal 0 rest : Nat) : Int)
    else ((decVal 0 (digitsPart (c :: rest)) : Nat) : Int)

/-- The range of Go's `int`: `[-2^63, 2^63 - 1]`. -/
def InIntRange (x : Int) : Prop := -(2 : Int) ^ 63 ≤ x ∧ x ≤ (2 : Int) ^ 63 - 1

instance (x : Int) : Decidable (InIntRange x) := by unfold InIntRange; infer_instance

/-- A query value the specification calls a valid integer: a decimal numeral
whose value is in the range of `int`. -/
def ValidInt (s : GoString) : Prop := IsNumeral s ∧ InIntRange (numeralValue s)

instance (s : GoString) : Decidable (ValidInt s) := by unfold ValidInt; infer_instance

/-- The byte of the decimal digit `d`. -/
def digitByte (d : Nat) : Byte := Fin.ofNat (48 + d)

/-- Canonical decimal representation of a natural number: its digits, most
significant first, and `0` for zero. -/
def natRepr (u : Nat) : GoString :=
  if u = 0 then [digitByte 0] else ((Nat.digits 10 u).reverse).map digitByte

/-- Canonical decimal representation of an integer: a `-` in front of the
representation of the magnitude for a negative one, no sign otherwise. -/
def decimalRepr (n : Int) : GoString :=
  if n < 0 then (45 : Byte) :: natRepr n.natAbs else natRepr n.natAbs

/-- The body of the `400` response: the text given to `http.Error` followed
by a newline. -/
def validationMessage : GoString :=
  utf8 "Пожалуйста, предоставьте два корректных числа.\n"

/-- The body of the response of the root handler. -/
def welcomeText : GoString :=
  utf8 "Простое веб-приложение калькулятор!\nИспользуйте /add?a=5&b=3 для сложения.\n"

/-- The first operand's key. -/
def keyA : GoString := utf8 "a"

/-- The second operand's key. -/
def keyB : GoString := utf8 "b"

/-! ## Machine arithmetic -/

theorem wrapInt_of_inRange {x : Int} (h : InIntRange x) : wrapInt x = x := by
  unfold InIntRange at h
  unfold wrapInt
  omega

theorem wrapInt_inRange (x : Int) : InIntRange (wrapInt x) := by
  unfold InIntRange wrapInt
  omega

theorem wrapInt_modEq (x : Int) : (2 : Int) ^ 64 ∣ wrapInt x - x := by
  unfold wrapInt
  omega

/-! ## The digit loops of `strconv` -/

theorem decVal_nil (n : Nat) : decVal n [] = n := rfl

theorem decVal_cons (n : Nat) (c : Byte) (cs : GoString) :
    decVal n (c :: cs) = decVal (n * 10 + (c.val - 48)) cs := rfl

theorem decVal_append (n : Nat) (xs ys : GoString) :
    decVal n (xs ++ ys) = decVal (decVal n xs) ys := by
  simp [decVal, List.foldl_append]

theorem le_decVal (cs : GoString) (n : Nat) : n ≤ decVal n cs := by
  induction cs generalizing n with
  | nil => simp [decVal_nil]
  | cons c cs ih =>
    rw [decVal_cons]
    have := ih (n * 10 + (c.val - 48))
    omega

theorem decVal_lt (cs : GoString) (n : Nat) (hd : ∀ c ∈ cs, IsDigit c) :
    decVal n cs < (n + 1) * 10 ^ cs.length := by
  induction cs generalizing n with
  | nil => simp [decVal_nil]
  | cons c cs ih =>
    rw [decVal_cons]
    have hc : IsDigit c := hd c (List.mem_cons_self _ _)
    unfold IsDigit at hc
    have h1 := ih (n * 10 + (c.val - 48)) (fun x hx => hd x (List.mem_cons_of_mem _ hx))
    have h2 : (n * 10 + (c.val - 48) + 1) * 10 ^ cs.length ≤ (n + 1) * 10 * 10 ^ cs.length :=
      Nat.mul_le_mul_right _ (by omega)
    have h3 : (n + 1) * 10 ^ (c :: cs).length = (n + 1) * 10 * 10 ^ cs.length := by
      rw [List.length_cons, pow_succ]; ring
    omega

theorem digitOf_of_isDigit {c : Byte} (h : IsDigit c) : digitOf c = some (c.val - 48) := by
  unfold IsDigit at h
  simp [digitOf, h]

theorem digitOf_of_not_isDigit {c : Byte} (h : ¬ IsDigit c) :
    digitOf c = none ∨ ∃ d, digitOf c = some d ∧ d ≥ 10 := by
  unfold IsDigit at h
  unfold digitOf
  rw [if_neg h]
  by_cases h2 : 97 ≤ lower c ∧ lower c ≤ 122
  · right
    rw [if_pos h2]
    exact ⟨_, rfl, by omega⟩
  · left
    rw [if_neg h2]

/-- Every return of the digit loop of `ParseUint` is a success, a syntax
error or the range error with the value `maxVal`. -/
theorem parseUintLoop_cases (cs : GoString) (n : Nat) :
    (parseUintLoop cs n).2 = none ∨ (parseUintLoop cs n).2 = some .ErrSyntax ∨
      parseUintLoop cs n = (2 ^ 64 - 1, some .ErrRange) := by
  induction cs generalizing n with
  | nil => left; rfl
  | cons c cs ih =>
    unfold parseUintLoop
    cases hd : digitOf c with
    | none => right; left; rfl
    | some d =>
      simp only []
      split
      · right; left; rfl
      · split
        · right; right; rfl
        · split
          · right; right; rfl
          · exact ih _

/-- A byte that is not a decimal digit makes the loop of `ParseUint` fail. -/
theorem parseUintLoop_err_of_not_digit (cs : GoString) (n : Nat)
    (h : ∃ c ∈ cs, ¬ IsDigit c) : (parseUintLoop cs n).2 ≠ none := by
  induction cs generalizing n with
  | nil => simp at h
  | cons c cs ih =>
    unfold parseUintLoop
    by_cases hc : IsDigit c
    · have hrest : ∃ x ∈ cs, ¬ IsDigit x := by
        obtain ⟨x, hx, hnx⟩ := h
        rcases List.mem_cons.mp hx with rfl | hx
        · exact absurd hc hnx
        · exact ⟨x, hx, hnx⟩
      rw [digitOf_of_isDigit hc]
      simp only []
      split
      · simp
      · split
        · simp
        · split
          · simp
          · exact ih _ hrest
    · rcases digitOf_of_not_isDigit hc with h0 | ⟨d, h0, hd⟩
      · rw [h0]; simp
      · rw [h0]
        simp only []
        rw [if_pos hd]
        simp

/-- On decimal digits the loop of `ParseUint` returns their value when it
fits `uint64`, and the range error otherwise. -/
theorem parseUintLoop_digits (cs : GoString) (n : Nat) (hn : n < 2 ^ 64)
    (hd : ∀ c ∈ cs, IsDigit c) :
    parseUintLoop cs n =
      if decVal n cs < 2 ^ 64 then (decVal n cs, none) else (2 ^ 64 - 1, some .ErrRange) := by
  induction cs generalizing n with
  | nil => rw [decVal_nil, if_pos hn]; rfl
  | cons c cs ih =>
    have hc : IsDigit c := hd c (List.mem_cons_self _ _)
    have hrest : ∀ x ∈ cs, IsDigit x := fun x hx => hd x (List.mem_cons_of_mem _ hx)
    unfold parseUintLoop
    rw [digitOf_of_isDigit hc, decVal_cons]
    unfold IsDigit at hc
    simp only []
    have hle := le_decVal cs (n * 10 + (c.val - 48))
    rw [if_neg (by omega)]
    by_cases hcut : n ≥ (2 ^ 64 - 1) / 10 + 1
    · rw [if_pos hcut, if_neg (by omega)]
    · rw [if_neg hcut]
      have h10 : wrapUint64 (n * 10) = n * 10 := by unfold wrapUint64; omega
      rw [h10]
      by_cases hov : n * 10 + (c.val - 48) < 2 ^ 64
      · have h1 : wrapUint64 (n * 10 + (c.val - 48)) = n * 10 + (c.val - 48) := by
          unfold wrapUint64; omega
        rw [h1, if_neg (by omega)]
        exact ih _ hov hrest
      · have h1 : wrapUint64 (n * 10 + (c.val - 48)) < n * 10 := by
          unfold wrapUint64; omega
        rw [if_pos (Or.inl h1), if_neg (by omega)]

/-- A byte that is not a decimal digit makes the fast loop of `Atoi` fail. -/
theorem atoiLoop_none_of_not_digit (cs : GoString) (n : Int)
    (h : ∃ c ∈ cs, ¬ IsDigit c) : atoiLoop cs n = none := by
  induction cs generalizing n with
  | nil => simp at h
  | cons c cs ih =>
    unfold atoiLoop
    simp only []
    by_cases hc : IsDigit c
    · have hrest : ∃ x ∈ cs, ¬ IsDigit x := by
        obtain ⟨x, hx, hnx⟩ := h
        rcases List.mem_cons.mp hx with rfl | hx
        · exact absurd hc hnx
        · exact ⟨x, hx, hnx⟩
      split
      · rfl
      · exact ih _ hrest
    · unfold IsDigit at hc
      rw [if_pos (by omega)]

/-- On decimal digits short enough not to overflow, the fast loop of `Atoi`
returns their value. -/
theorem atoiLoop_digits (cs : GoString) (n : Nat) (hd : ∀ c ∈ cs, IsDigit c)
    (hb : (n + 1) * 10 ^ cs.length ≤ 2 ^ 63) :
    atoiLoop cs (n : Int) = some ((decVal n cs : Nat) : Int) := by
  induction cs generalizing n with
  | nil => simp [atoiLoop, decVal_nil]
  | cons c cs ih =>
    have hc : IsDigit c := hd c (List.mem_cons_self _ _)
    have hrest : ∀ x ∈ cs, IsDigit x := fun x hx => hd x (List.mem_cons_of_mem _ hx)
    unfold IsDigit at hc
    have h3 : (n + 1) * 10 ^ (c :: cs).length = (n + 1) * 10 * 10 ^ cs.length := by
      rw [List.length_cons, pow_succ]; ring
    have hpos : 1 ≤ 10 ^ cs.length := Nat.one_le_pow _ _ (by norm_num)
    have h4 : (n + 1) * 10 * 1 ≤ (n + 1) * 10 * 10 ^ cs.length := Nat.mul_le_mul_left _ hpos
    have h5 : (n * 10 + (c.val - 48) + 1) * 10 ^ cs.length ≤ (n + 1) * 10 * 10 ^ cs.length :=
      Nat.mul_le_mul_right _ (by omega)
    unfold atoiLoop
    simp only []
    rw [if_neg (by omega), decVal_cons]
    have hw1 : wrapInt ((n : Int) * 10) = (n : Int) * 10 :=
      wrapInt_of_inRange (by unfold InIntRange; omega)
    have hch : (c.val + 256 - 48) % 256 = c.val - 48 := by omega
    have hw2 : wrapInt ((n : Int) * 10 + ((c.val - 48 : Nat) : Int))
        = ((n * 10 + (c.val - 48) : Nat) : Int) := by
      rw [wrapInt_of_inRange (by unfold InIntRange; omega)]
      push_cast; rfl
    rw [hw1, hch, hw2]
    exact ih _ hrest (by omega)

/-! ## `ParseInt` and `Atoi` against the vocabulary of the specification -/

theorem numeralValue_cons (c : Byte) (rest : GoString) :
    numeralValue (c :: rest) =
      if c.val = 45 then -((decVal 0 (digitsPart (c :: rest)) : Nat) : Int)
      else ((decVal 0 (digitsPart (c :: rest)) : Nat) : Int) := by
  unfold numeralValue
  by_cases h : c.val = 45
  · simp [h, digitsPart]
  · simp [h]

theorem ParseInt_of_ParseUint (c : Byte) (rest : GoString) (un : Nat) (err : Option NumError)
    (h : ParseUint (digitsPart (c :: rest)) = (un, err)) :
    ParseInt (c :: rest) =
      if err = some .ErrSyntax then (0, err)
      else if ¬ c.val = 45 ∧ un ≥ 2 ^ 63 then (((2 ^ 63 - 1 : Nat) : Int), some .ErrRange)
      else if c.val = 45 ∧ un > 2 ^ 63 then (-((2 ^ 63 : Nat) : Int), some .ErrRange)
      else (if c.val = 45 then negInt (wrapInt (un : Int)) else wrapInt (un : Int), none) := by
  have hs : (if c.val = 43 then rest else if c.val = 45 then rest else c :: rest)
      = digitsPart (c :: rest) := by
    unfold digitsPart
    by_cases h1 : c.val = 43
    · simp [h1]
    · by_cases h2 : c.val = 45
      · simp [h2]
      · simp [h1, h2]
  unfold ParseInt
  simp only [hs, h, intSize]

/-- The slow path of `Atoi`: `ParseInt` accepts exactly the valid integers
and returns their value. -/
theorem ParseInt_spec (s : GoString) :
    (ValidInt s → ParseInt s = (numeralValue s, none)) ∧
      (¬ ValidInt s → (ParseInt s).2 ≠ none) := by
  cases s with
  | nil =>
    refine ⟨fun h => ?_, fun _ => ?_⟩
    · exact absurd h (by decide)
    · simp [ParseInt]
  | cons c rest =>
    by_cases hne : digitsPart (c :: rest) = []
    · have hP : ParseUint (digitsPart (c :: rest)) = (0, some .ErrSyntax) := by
        simp [ParseUint, hne]
      rw [ParseInt_of_ParseUint c rest _ _ hP]
      refine ⟨fun h => ?_, fun _ => by simp⟩
      exact absurd hne h.1.1
    · by_cases hd : ∀ x ∈ digitsPart (c :: rest), IsDigit x
      · have hL := parseUintLoop_digits (digitsPart (c :: rest)) 0 (by norm_num) hd
        have hnum : IsNumeral (c :: rest) := ⟨hne, hd⟩
        have hval := numeralValue_cons c rest
        by_cases hfit : decVal 0 (digitsPart (c :: rest)) < 2 ^ 64
        · rw [if_pos hfit] at hL
          have hP : ParseUint (digitsPart (c :: rest))
              = (decVal 0 (digitsPart (c :: rest)), none) := by
            unfold ParseUint; rw [if_neg hne, hL]
          rw [ParseInt_of_ParseUint c rest _ _ hP, if_neg (by simp)]
          generalize decVal 0 (digitsPart (c :: rest)) = v at hfit hval
          unfold ValidInt InIntRange
          by_cases hneg : c.val = 45
          · rw [if_pos hneg] at hval
            rw [hval]
            by_cases hbig : v > 2 ^ 63
            · rw [if_neg (fun h => h.1 hneg), if_pos ⟨hneg, hbig⟩]
              refine ⟨fun h => ?_, fun _ => by simp⟩
              have := h.2
              omega
            · rw [if_neg (fun h => h.1 hneg), if_neg (fun h => hbig h.2), if_pos hneg]
              refine ⟨fun _ => ?_, fun h => absurd ⟨hnum, by omega⟩ h⟩
              have : negInt (wrapInt (v : Int)) = -(v : Int) := by
                unfold negInt wrapInt; omega
              rw [this]
          · rw [if_neg hneg] at hval
            rw [hval]
            by_cases hbig : v ≥ 2 ^ 63
            · rw [if_pos ⟨hneg, hbig⟩]
              refine ⟨fun h => ?_, fun _ => by simp⟩
              have := h.2
              omega
            · rw [if_neg (fun h => hbig h.2), if_neg (fun h => hneg h.1), if_neg hneg]
              refine ⟨fun _ => ?_, fun h => absurd ⟨hnum, by omega⟩ h⟩
              have : wrapInt (v : Int) = (v : Int) := by
                unfold wrapInt; omega
              rw [this]
        · rw [if_neg hfit] at hL
          have hP : ParseUint (digitsPart (c :: rest)) = (2 ^ 64 - 1, some .ErrRange) := by
            unfold ParseUint; rw [if_neg hne, hL]
          rw [ParseInt_of_ParseUint c rest _ _ hP, if_neg (by simp)]
          generalize decVal 0 (digitsPart (c :: rest)) = v at hfit hval
          unfold ValidInt InIntRange
          by_cases hneg : c.val = 45
          · rw [if_pos hneg] at hval
            rw [hval, if_neg (fun h => h.1 hneg), if_pos ⟨hneg, by norm_num⟩]
            refine ⟨fun h => ?_, fun _ => by simp⟩
            have := h.2
            omega
          · rw [if_neg hneg] at hval
            rw [hval, if_pos ⟨hneg, by norm_num⟩]
            refine ⟨fun h => ?_, fun _ => by simp⟩
            have := h.2
            omega
      · have hbad : ∃ x ∈ digitsPart (c :: rest), ¬ IsDigit x := by
          push_neg at hd; exact hd
        have hE := parseUintLoop_err_of_not_digit (digitsPart (c :: rest)) 0 hbad
        have hnv : ¬ ValidInt (c :: rest) := fun h => hd h.1.2
        refine ⟨fun h => absurd h hnv, fun _ => ?_⟩
        rcases parseUintLoop_cases (digitsPart (c :: rest)) 0 with h0 | h0 | h0
        · exact absurd h0 hE
        · have hP : ParseUint (digitsPart (c :: rest))
              = ((parseUintLoop (digitsPart (c :: rest)) 0).1, some .ErrSyntax) := by
            unfold ParseUint; rw [if_neg hne, ← h0]
          rw [ParseInt_of_ParseUint c rest _ _ hP]
          simp
        · have hP : ParseUint (digitsPart (c :: rest)) = (2 ^ 64 - 1, some .ErrRange) := by
            unfold ParseUint; rw [if_neg hne, h0]
          rw [ParseInt_of_ParseUint c rest _ _ hP, if_neg (by simp)]
          by_cases hneg : c.val = 45
          · rw [if_neg (fun h => h.1 hneg), if_pos ⟨hneg, by norm_num⟩]
            simp
          · rw [if_pos ⟨hneg, by norm_num⟩]
            simp

theorem digitsPart_cons (c : Byte) (rest : GoString) :
    digitsPart (c :: rest) = if c.val = 43 ∨ c.val = 45 then rest else c :: rest := rfl

theorem digitsPart_length_le (s : GoString) : (digitsPart s).length ≤ s.length := by
  cases s with
  | nil => simp [digitsPart]
  | cons c rest =>
    rw [digitsPart_cons]
    split <;> simp

/-- `strconv.Atoi` accepts exactly the valid integers, and returns the value
of the one it accepts. -/
theorem Atoi_spec (s : GoString) :
    (ValidInt s → Atoi s = (numeralValue s, none)) ∧
      (¬ ValidInt s → (Atoi s).2 ≠ none) := by
  by_cases hlen : 0 < s.length ∧ s.length < 19
  · unfold Atoi
    simp only [intSize]
    rw [if_pos (Or.inr ⟨trivial, hlen⟩)]
    cases s with
    | nil => simp at hlen
    | cons c rest =>
      have hs : (if c.val = 45 ∨ c.val = 43 then rest else c :: rest)
          = digitsPart (c :: rest) := by
        rw [digitsPart_cons]
        by_cases h1 : c.val = 43
        · simp [h1]
        · by_cases h2 : c.val = 45
          · simp [h2]
          · simp [h1, h2]
      simp only [hs]
      by_cases hempty : (c.val = 45 ∨ c.val = 43) ∧ rest.length < 1
      · rw [if_pos hempty]
        refine ⟨fun h => ?_, fun _ => by simp⟩
        have hr : rest = [] := List.length_eq_zero.mp (by omega)
        have : digitsPart (c :: rest) = [] := by
          rw [digitsPart_cons, if_pos (Or.symm hempty.1), hr]
        exact absurd this h.1.1
      · rw [if_neg hempty]
        have hne : digitsPart (c :: rest) ≠ [] := by
          rw [digitsPart_cons]
          by_cases hsg : c.val = 43 ∨ c.val = 45
          · rw [if_pos hsg]
            intro hr
            exact hempty ⟨Or.symm hsg, by simp [hr]⟩
          · rw [if_neg hsg]; simp
        by_cases hd : ∀ x ∈ digitsPart (c :: rest), IsDigit x
        · have hl := digitsPart_length_le (c :: rest)
          have hpow : 10 ^ (digitsPart (c :: rest)).length ≤ 10 ^ 18 :=
            Nat.pow_le_pow_right (by norm_num) (by omega)
          have hL := atoiLoop_digits (digitsPart (c :: rest)) 0 hd (by omega)
          have hlt := decVal_lt (digitsPart (c :: rest)) 0 hd
          have hval := numeralValue_cons c rest
          rw [Nat.cast_zero] at hL
          rw [hL]
          simp only []
          generalize decVal 0 (digitsPart (c :: rest)) = v at hlt hval
          have hnv : ValidInt (c :: rest) := by
            refine ⟨⟨hne, hd⟩, ?_⟩
            unfold InIntRange
            rw [hval]
            split <;> omega
          refine ⟨fun _ => ?_, fun h => absurd hnv h⟩
          rw [hval]
          by_cases hneg : c.val = 45
          · rw [if_pos hneg, if_pos hneg]
            have : negInt (v : Int) = -(v : Int) := by
              unfold negInt wrapInt; omega
            rw [this]
          · rw [if_neg hneg, if_neg hneg]
        · have hbad : ∃ x ∈ digitsPart (c :: rest), ¬ IsDigit x := by
            push_neg at hd; exact hd
          rw [atoiLoop_none_of_not_digit _ 0 hbad]
          exact ⟨fun h => absurd h.1.2 hd, fun _ => by simp⟩
  · unfold Atoi
    simp only [intSize]
    rw [if_neg (by rintro (h | h); exact absurd h.1 (by decide); exact hlen h.2)]
    simp only []
    refine ⟨fun h => ?_, fun h => (ParseInt_spec s).2 h⟩
    rw [(ParseInt_spec s).1 h, wrapInt_of_inRange h.2]

/-- A query value that `Atoi` parses without error is a valid integer. -/
theorem validInt_of_Atoi {s : GoString} (h : (Atoi s).2 = none) : ValidInt s := by
  by_contra hv
  exact (Atoi_spec s).2 hv h

theorem Atoi_err_iff (s : GoString) : (Atoi s).2 ≠ none ↔ ¬ ValidInt s :=
  ⟨fun h hv => h (by rw [(Atoi_spec s).1 hv]), (Atoi_spec s).2⟩

/-! ## Decimal output -/

theorem digitByte_val {d : Nat} (h : d < 10) : (digitByte d).val = 48 + d := by
  unfold digitByte
  simp only [Fin.ofNat, Fin.val_mk]
  omega

theorem natRepr_small {u : Nat} (h : u < 10) : natRepr u = [digitByte u] := by
  unfold natRepr
  by_cases h0 : u = 0
  · rw [if_pos h0, h0]
  · rw [if_neg h0, Nat.digits_of_lt 10 u h0 h]
    rfl

theorem natRepr_step {u : Nat} (h : 10 ≤ u) :
    natRepr u = natRepr (u / 10) ++ [digitByte (u % 10)] := by
  unfold natRepr
  have h1 : u ≠ 0 := by omega
  have h2 : u / 10 ≠ 0 := by omega
  rw [if_neg h1, if_neg h2, Nat.digits_def' (by norm_num) (by omega)]
  simp

/-- The digit loop of `fmtInteger` writes the canonical decimal
representation: the iteration bound is never exhausted. -/
theorem fmtDigits_eq (k u : Nat) (acc : GoString) (h : u ≤ k) :
    fmtDigits k u acc = natRepr u ++ acc := by
  induction k generalizing u acc with
  | zero =>
    have h0 : u = 0 := by omega
    subst h0
    rfl
  | succ k ih =>
    unfold fmtDigits
    by_cases h10 : u ≥ 10
    · rw [if_pos h10, ih _ _ (by omega), natRepr_step h10]
      have : u - u / 10 * 10 = u % 10 := by omega
      rw [this]
      simp [digitByte]
    · rw [if_neg h10, natRepr_small (by omega)]
      rfl

theorem fmtUint_eq (u : Nat) : fmtUint u = natRepr u := by
  unfold fmtUint
  rw [fmtDigits_eq u u [] (le_refl _), List.append_nil]

/-- What `%d` prints is the canonical decimal representation. -/
theorem fmtInteger_eq (n : Int) : fmtInteger n = decimalRepr n := by
  unfold fmtInteger decimalRepr
  rw [fmtUint_eq]

theorem natRepr_spec (u : Nat) :
    natRepr u ≠ [] ∧ (∀ c ∈ natRepr u, IsDigit c) ∧ decVal 0 (natRepr u) = u := by
  induction u using Nat.strong_induction_on with
  | _ u ih =>
    by_cases h10 : u < 10
    · rw [natRepr_small h10]
      have hv := digitByte_val h10
      refine ⟨by simp, ?_, ?_⟩
      · intro c hc
        rw [List.mem_singleton] at hc
        subst hc
        unfold IsDigit
        omega
      · rw [decVal_cons, decVal_nil, hv]
        omega
    · obtain ⟨_, hd, hv⟩ := ih (u / 10) (by omega)
      rw [natRepr_step (by omega)]
      have hb := digitByte_val (Nat.mod_lt u (by norm_num : 10 > 0))
      refine ⟨by simp, ?_, ?_⟩
      · intro c hc
        rcases List.mem_append.mp hc with hc | hc
        · exact hd c hc
        · rw [List.mem_singleton] at hc
          subst hc
          unfold IsDigit
          omega
      · rw [decVal_append, hv, decVal_cons, decVal_nil, hb]
        omega

theorem digitsPart_natRepr (u : Nat) : digitsPart (natRepr u) = natRepr u := by
  obtain ⟨hne, hd, _⟩ := natRepr_spec u
  cases h : natRepr u with
  | nil => exact absurd h hne
  | cons c rest =>
    have hc : IsDigit c := hd c (by rw [h]; exact List.mem_cons_self _ _)
    unfold IsDigit at hc
    rw [digitsPart_cons, if_neg (by omega)]

/-- The canonical decimal representation of an integer is a decimal numeral
that denotes it. -/
theorem decimalRepr_spec (n : Int) :
    IsNumeral (decimalRepr n) ∧ numeralValue (decimalRepr n) = n := by
  obtain ⟨hne, hd, hv0⟩ := natRepr_spec n.natAbs
  unfold decimalRepr
  by_cases hn : n < 0
  · rw [if_pos hn]
    have hp : digitsPart ((45 : Byte) :: natRepr n.natAbs) = natRepr n.natAbs := by
      rw [digitsPart_cons, if_pos (show (45 : Byte).val = 43 ∨ (45 : Byte).val = 45 from Or.inr rfl)]
    refine ⟨⟨by rw [hp]; exact hne, by rw [hp]; exact hd⟩, ?_⟩
    rw [numeralValue_cons, if_pos (show (45 : Byte).val = 45 from rfl), hp, hv0]
    omega
  · rw [if_neg hn]
    have hp := digitsPart_natRepr n.natAbs
    refine ⟨⟨by rw [hp]; exact hne, by rw [hp]; exact hd⟩, ?_⟩
    cases h : natRepr n.natAbs with
    | nil => exact absurd h hne
    | cons c rest =>
      have hc : IsDigit c := hd c (by rw [h]; exact List.mem_cons_self _ _)
      unfold IsDigit at hc
      rw [numeralValue_cons, if_neg (by omega), ← h, hp, hv0]
      omega

/-- Parsing the canonical decimal representation of an `int` gives the
`int` back. -/
theorem Atoi_decimalRepr {n : Int} (h : InIntRange n) : Atoi (decimalRepr n) = (n, none) := by
  obtain ⟨hnum, hval⟩ := decimalRepr_spec n
  have := (Atoi_spec (decimalRepr n)).1 ⟨hnum, by rw [hval]; exact h⟩
  rw [this, hval]

/-! ## The handlers -/

theorem Sprintf_cons_cons (c d : Byte) (rest : GoString) (args : List Int) :
    Sprintf (c :: d :: rest) args =
      if c.val = 37 ∧ d.val = 100 then
        match args with
        | a :: more => fmtInteger a ++ Sprintf rest more
        | [] => c :: Sprintf (d :: rest) []
      else c :: Sprintf (d :: rest) args := by
  rw [Sprintf.eq_def]

/-- A format that ends in its only verb `%d`: the text is copied and the
operand printed after it. -/
theorem Sprintf_text_d (pre : GoString) (n : Int) (h : ∀ c ∈ pre, c.val ≠ 37) :
    Sprintf (pre ++ [37, 100]) [n] = pre ++ fmtInteger n := by
  induction pre with
  | nil =>
    rw [List.nil_append, Sprintf_cons_cons,
      if_pos (show (37 : Byte).val = 37 ∧ (100 : Byte).val = 100 from ⟨rfl, rfl⟩)]
    simp [Sprintf]
  | cons c pre ih =>
    have hc : c.val ≠ 37 := h c (List.mem_cons_self _ _)
    have ih1 := ih (fun x hx => h x (List.mem_cons_of_mem _ hx))
    cases hp : pre ++ [37, 100] with
    | nil => simp at hp
    | cons d rest =>
      rw [List.cons_append, hp, Sprintf_cons_cons, if_neg (fun hh => hc hh.1), ← hp, ih1]
      rfl

/-- A format without any verb is copied. -/
theorem Sprintf_text (s : GoString) (args : List Int) (h : ∀ c ∈ s, c.val ≠ 37) :
    Sprintf s args = s := by
  induction s with
  | nil => simp [Sprintf]
  | cons c s ih =>
    have hc : c.val ≠ 37 := h c (List.mem_cons_self _ _)
    have ih1 := ih (fun x hx => h x (List.mem_cons_of_mem _ hx))
    cases s with
    | nil => simp [Sprintf]
    | cons d rest => rw [Sprintf_cons_cons, if_neg (fun hh => hc hh.1), ih1]

/-- The text in front of the sum. -/
theorem Sprintf_result (n : Int) :
    Sprintf (utf8 "Результат: %d") [n] = utf8 "Результат: " ++ fmtInteger n := by
  have h1 : utf8 "Результат: %d" = utf8 "Результат: " ++ [37, 100] := by decide
  rw [h1]
  exact Sprintf_text_d _ n (by decide)

theorem validationMessage_eq :
    utf8 "Пожалуйста, предоставьте два корректных числа." ++ [10] = validationMessage := by
  decide

/-- The two exits of the `/add` handler. -/
theorem serveAdd_eq (r : Request) :
    serveAdd r =
      if (Atoi (r.query.Get keyA)).2 ≠ none ∨ (Atoi (r.query.Get keyB)).2 ≠ none then
        ⟨400, validationMessage⟩
      else
        ⟨200, utf8 "Результат: " ++
          decimalRepr (addInt (Atoi (r.query.Get keyA)).1 (Atoi (r.query.Get keyB)).1)⟩ := by
  unfold serveAdd addHandler
  simp only [keyA, keyB]
  split
  · simp only [httpError, ResponseWriter.WriteHeader, ResponseWriter.Write,
      ResponseWriter.fresh, ResponseWriter.finish, StatusBadRequest, validationMessage_eq,
      Option.getD, List.nil_append]
  · simp only [Fprintf, ResponseWriter.WriteHeader, ResponseWriter.Write,
      ResponseWriter.fresh, ResponseWriter.finish, Sprintf_result, fmtInteger_eq,
      Option.getD, List.nil_append]

theorem serveRoot_eq (r : Request) : serveRoot r = ⟨200, welcomeText⟩ := by
  have h1 : ∀ c ∈ utf8 "Простое веб-приложение калькулятор!\n", c.val ≠ 37 := by decide
  have h2 : ∀ c ∈ utf8 "Используйте /add?a=5&b=3 для сложения.\n", c.val ≠ 37 := by decide
  have h3 : utf8 "Простое веб-приложение калькулятор!\n" ++
      utf8 "Используйте /add?a=5&b=3 для сложения.\n" = welcomeText := by decide
  unfold serveRoot rootHandler
  simp only [Fprintf, Sprintf_text _ _ h1, Sprintf_text _ _ h2, ResponseWriter.WriteHeader,
    ResponseWriter.Write, ResponseWriter.fresh, ResponseWriter.finish, Option.getD,
    List.nil_append, h3]

theorem Get_addRequest_a (x y : GoString) : (addRequest x y).query.Get keyA = x := by
  simp [addRequest, Values.Get, keyA]

theorem Get_addRequest_b (x y : GoString) : (addRequest x y).query.Get keyB = y := by
  have h : utf8 "b" ≠ utf8 "a" := by decide
  simp [addRequest, Values.Get, keyB, h]

/-- The response when both operands parse. -/
theorem serveAdd_ok (r : Request) (a b : Int) (ha : Atoi (r.query.Get keyA) = (a, none))
    (hb : Atoi (r.query.Get keyB) = (b, none)) :
    serveAdd r = ⟨200, utf8 "Результат: " ++ decimalRepr (addInt a b)⟩ := by
  rw [serveAdd_eq, ha, hb, if_neg (by simp)]

/-- The response when an operand does not parse. -/
theorem serveAdd_bad (r : Request)
    (h : ¬ ValidInt (r.query.Get keyA) ∨ ¬ ValidInt (r.query.Get keyB)) :
    serveAdd r = ⟨400, validationMessage⟩ := by
  rw [serveAdd_eq, if_pos]
  rcases h with h | h
  · exact Or.inl ((Atoi_err_iff _).2 h)
  · exact Or.inr ((Atoi_err_iff _).2 h)

theorem serveAll_eq_map (st : ServerState) (l : List (Route × Request)) :
    serveAll st l = l.map fun p => (serve () p.1 p.2).2 := by
  induction l generalizing st with
  | nil => rfl
  | cons p l ih =>
    obtain ⟨route, r⟩ := p
    simp only [serveAll, List.map_cons]
    rw [ih]

/-! ## The concrete scenarios of the specification -/

theorem scenario_add_5_3 :
    serveAdd (addRequest (utf8 "5") (utf8 "3")) = ⟨200, utf8 "Результат: 8"⟩ := by
  decide

theorem scenario_add_neg10_4 :
    serveAdd (addRequest (utf8 "-10") (utf8 "4")) = ⟨200, utf8 "Результат: -6"⟩ := by
  decide

theorem scenario_add_abc_3 :
    serveAdd (addRequest (utf8 "abc") (utf8 "3")) = ⟨400, validationMessage⟩ := by
  decide

theorem scenario_add_no_params : serveAdd ⟨fun _ => []⟩ = ⟨400, validationMessage⟩ := by
  decide

theorem scenario_root : serveRoot ⟨fun _ => []⟩ = ⟨200, welcomeText⟩ := by
  decide

/-! ## The claims -/

/-- C1 (as stated, refuted): with `a = 9223372036854775807` and `b = 1`, both in
the range of `int` and given in canonical decimal form, the `/add` handler
answers `200` with `Результат: -9223372036854775808`, which is not the
decimal representation of the mathematical sum `9223372036854775808`. -/
theorem C1_counterexample :
    InIntRange 9223372036854775807 ∧ InIntRange 1 ∧
      serveAdd (addRequest (decimalRepr 9223372036854775807) (decimalRepr 1))
        = ⟨200, utf8 "Результат: -9223372036854775808"⟩ ∧
      serveAdd (addRequest (decimalRepr 9223372036854775807) (decimalRepr 1))
        ≠ ⟨200, utf8 "Результат: " ++ decimalRepr (9223372036854775807 + 1)⟩ := by
  have h1 : serveAdd (addRequest (decimalRepr 9223372036854775807) (decimalRepr 1))
      = ⟨200, utf8 "Результат: -9223372036854775808"⟩ := by
    rw [← fmtInteger_eq, ← fmtInteger_eq]
    decide
  refine ⟨by decide, by decide, h1, ?_⟩
  rw [h1, ← fmtInteger_eq]
  decide

/-- C1 (amended): for every pair of integers `a`, `b` in the range of `int`
whose sum is in that range too, the `/add` handler given `a` and `b` in
canonical decimal form answers `200` with a body that is exactly
`Результат: ` followed by the decimal representation of `a + b`. -/
theorem C1_add_in_range (r : Request) (a b : Int)
    (hqa : r.query.Get keyA = decimalRepr a) (hqb : r.query.Get keyB = decimalRepr b)
    (ha : InIntRange a) (hb : InIntRange b) (hab : InIntRange (a + b)) :
    serveAdd r = ⟨200, utf8 "Результат: " ++ decimalRepr (a + b)⟩ := by
  have h := serveAdd_ok r a b (by rw [hqa]; exact Atoi_decimalRepr ha)
    (by rw [hqb]; exact Atoi_decimalRepr hb)
  rw [h]
  unfold addInt
  rw [wrapInt_of_inRange hab]

/-- C1 (amended), at `a = -10`, `b = 4`. -/
theorem C1_add_in_range_witness :
    serveAdd (addRequest (decimalRepr (-10)) (decimalRepr 4))
      = ⟨200, utf8 "Результат: " ++ decimalRepr (-10 + 4)⟩ :=
  C1_add_in_range (addRequest (decimalRepr (-10)) (decimalRepr 4)) (-10) 4
    (Get_addRequest_a _ _) (Get_addRequest_b _ _) (by decide) (by decide) (by decide)

/-- C2: for every `/add` request in which `a` or `b` is omitted, is the empty
string or is not a decimal numeral, the response is `400` with one fixed
body, the same whichever parameter is bad, whatever its value and whatever
the other parameter; that body does not contain the text `Результат`. -/
theorem C2_invalid_input_rejected (r : Request)
    (h : r.query keyA = [] ∨ r.query.Get keyA = [] ∨ ¬ IsNumeral (r.query.Get keyA) ∨
      r.query keyB = [] ∨ r.query.Get keyB = [] ∨ ¬ IsNumeral (r.query.Get keyB)) :
    serveAdd r = ⟨400, validationMessage⟩ ∧ ¬ (utf8 "Результат" <:+: validationMessage) := by
  have hempty : ¬ IsNumeral ([] : GoString) := by decide
  have hget : ∀ key, r.query key = [] → r.query.Get key = [] := by
    intro key hk
    simp [Values.Get, hk]
  refine ⟨serveAdd_bad r ?_, ?_⟩
  · rcases h with h | h | h | h | h | h
    · exact Or.inl fun hv => hempty (by rw [← hget _ h]; exact hv.1)
    · exact Or.inl fun hv => hempty (by rw [← h]; exact hv.1)
    · exact Or.inl fun hv => h hv.1
    · exact Or.inr fun hv => hempty (by rw [← hget _ h]; exact hv.1)
    · exact Or.inr fun hv => hempty (by rw [← h]; exact hv.1)
    · exact Or.inr fun hv => h hv.1
  · decide

/-- C2 at `a=abc&b=3` and at the request without parameters. -/
theorem C2_invalid_input_rejected_witness :
    (serveAdd (addRequest (utf8 "abc") (utf8 "3")) = ⟨400, validationMessage⟩ ∧
        ¬ (utf8 "Результат" <:+: validationMessage)) ∧
      (serveAdd ⟨fun _ => []⟩ = ⟨400, validationMessage⟩ ∧
        ¬ (utf8 "Результат" <:+: validationMessage)) :=
  ⟨C2_invalid_input_rejected (addRequest (utf8 "abc") (utf8 "3"))
      (Or.inr (Or.inr (Or.inl (by decide)))),
    C2_invalid_input_rejected ⟨fun _ => []⟩ (Or.inl rfl)⟩

/-- C3: an `/add` request in which `a` or `b` is a decimal numeral whose value
is below `-9223372036854775808` or above `9223372036854775807` gets `400`
with the fixed validation body, whatever the other parameter; the numerals
`9223372036854775807` and `-9223372036854775808` themselves are accepted, so
that with a valid other operand the status is `200`. -/
theorem C3_out_of_range_rejected (r : Request) :
    ((IsNumeral (r.query.Get keyA) ∧ ¬ InIntRange (numeralValue (r.query.Get keyA)) ∨
        IsNumeral (r.query.Get keyB) ∧ ¬ InIntRange (numeralValue (r.query.Get keyB))) →
      serveAdd r = ⟨400, validationMessage⟩) ∧
    ((r.query.Get keyA = utf8 "9223372036854775807" ∨
        r.query.Get keyA = utf8 "-9223372036854775808") →
      ValidInt (r.query.Get keyB) → (serveAdd r).status = 200) ∧
    (ValidInt (r.query.Get keyA) →
      (r.query.Get keyB = utf8 "9223372036854775807" ∨
        r.query.Get keyB = utf8 "-9223372036854775808") → (serveAdd r).status = 200) := by
  have hmax : ValidInt (utf8 "9223372036854775807") := by decide
  have hmin : ValidInt (utf8 "-9223372036854775808") := by decide
  have hok : ValidInt (r.query.Get keyA) → ValidInt (r.query.Get keyB) →
      (serveAdd r).status = 200 := by
    intro ha hb
    rw [serveAdd_ok r _ _ ((Atoi_spec _).1 ha) ((Atoi_spec _).1 hb)]
  refine ⟨fun h => serveAdd_bad r ?_, fun h hb => hok ?_ hb, fun ha h => hok ha ?_⟩
  · rcases h with h | h
    · exact Or.inl fun hv => h.2 hv.2
    · exact Or.inr fun hv => h.2 hv.2
  · rcases h with h | h <;> rw [h] <;> assumption
  · rcases h with h | h <;> rw [h] <;> assumption

/-- C3 at `a=9223372036854775808&b=0` (rejected) and at
`a=9223372036854775807&b=0`, `a=-9223372036854775808&b=0` (accepted). -/
theorem C3_out_of_range_rejected_witness :
    serveAdd (addRequest (utf8 "9223372036854775808") (utf8 "0")) = ⟨400, validationMessage⟩ ∧
      (serveAdd (addRequest (utf8 "9223372036854775807") (utf8 "0"))).status = 200 ∧
      (serveAdd (addRequest (utf8 "-9223372036854775808") (utf8 "0"))).status = 200 :=
  ⟨(C3_out_of_range_rejected (addRequest (utf8 "9223372036854775808") (utf8 "0"))).1
      (Or.inl (by decide)),
    (C3_out_of_range_rejected (addRequest (utf8 "9223372036854775807") (utf8 "0"))).2.1
      (Or.inl (by decide)) (by decide),
    (C3_out_of_range_rejected (addRequest (utf8 "-9223372036854775808") (utf8 "0"))).2.1
      (Or.inr (by decide)) (by decide)⟩

/-- C4: every request handled by the root handler, whatever its query, gets
status `200` and one fixed body; the body is two lines, each ended by a
newline, and the second line contains the usage example `/add?a=5&b=3`. -/
theorem C4_root_fixed_text (r : Request) :
    serveRoot r = ⟨200, welcomeText⟩ ∧
      ∃ l1 l2 : GoString, welcomeText = l1 ++ [10] ++ l2 ++ [10] ∧
        (10 : Byte) ∉ l1 ∧ (10 : Byte) ∉ l2 ∧ utf8 "/add?a=5&b=3" <:+: l2 := by
  refine ⟨serveRoot_eq r, utf8 "Простое веб-приложение калькулятор!",
    utf8 "Используйте /add?a=5&b=3 для сложения.", by decide, by decide, by decide, ?_⟩
  exact ⟨utf8 "Используйте ", utf8 " для сложения.", by decide⟩

/-- C5: the response of the `/add` handler is a function of the query values
`a` and `b` alone, and no state is carried between requests: a request that
agrees with `r` on `a` and `b`, served at any position of any sequence of
requests from any server state, gets exactly the response of `r` served
alone; in particular `r` repeated `n` times gets `n` identical responses. -/
theorem C5_add_deterministic_stateless (r r1 : Request) (st : ServerState)
    (before after : List (Route × Request)) (n : Nat)
    (ha : r1.query.Get keyA = r.query.Get keyA) (hb : r1.query.Get keyB = r.query.Get keyB) :
    (serveAll st (before ++ (Route.add, r1) :: after))[before.length]? = some (serveAdd r) ∧
      serveAll st (List.replicate n (Route.add, r)) = List.replicate n (serveAdd r) := by
  have h1 : serveAdd r1 = serveAdd r := by
    rw [serveAdd_eq, serveAdd_eq, ha, hb]
  constructor
  · rw [serveAll_eq_map, List.map_append, List.map_cons,
      List.getElem?_append_right (by simp)]
    simp only [List.length_map, Nat.sub_self, List.getElem?_cons_zero]
    rw [← h1]
    rfl
  · rw [serveAll_eq_map, List.map_replicate]
    rfl

/-- C5 at `a=5&b=3`, served third after a request for `/` and a bad `/add`
request, and served three times in a row. -/
theorem C5_add_deterministic_stateless_witness :
    (serveAll () ([(Route.root, ⟨fun _ => []⟩), (Route.add, ⟨fun _ => []⟩)] ++
        (Route.add, addRequest (utf8 "5") (utf8 "3")) :: []))[
          [(Route.root, (⟨fun _ => []⟩ : Request)), (Route.add, ⟨fun _ => []⟩)].length]?
        = some (serveAdd (addRequest (utf8 "5") (utf8 "3"))) ∧
      serveAll () (List.replicate 3 (Route.add, addRequest (utf8 "5") (utf8 "3")))
        = List.replicate 3 (serveAdd (addRequest (utf8 "5") (utf8 "3"))) :=
  C5_add_deterministic_stateless (addRequest (utf8 "5") (utf8 "3"))
    (addRequest (utf8 "5") (utf8 "3")) ()
    [(Route.root, ⟨fun _ => []⟩), (Route.add, ⟨fun _ => []⟩)] [] 3 rfl rfl

/-- C6: whenever both `a` and `b` parse, whatever their values in the range of
`int`, the `/add` handler does not reject the request: it answers `200` with
a body that is `Результат: ` followed by the decimal representation of one
integer, itself in the range of `int`. -/
theorem C6_add_total_on_parsed (r : Request)
    (ha : (Atoi (r.query.Get keyA)).2 = none) (hb : (Atoi (r.query.Get keyB)).2 = none) :
    ∃ n : Int, InIntRange n ∧ serveAdd r = ⟨200, utf8 "Результат: " ++ decimalRepr n⟩ := by
  refine ⟨addInt (Atoi (r.query.Get keyA)).1 (Atoi (r.query.Get keyB)).1,
    wrapInt_inRange _, ?_⟩
  exact serveAdd_ok r _ _ (Prod.ext rfl ha) (Prod.ext rfl hb)

/-- C6 at the two least values of the range, `a=-9223372036854775808` and
`b=-9223372036854775808`. -/
theorem C6_add_total_on_parsed_witness :
    ∃ n : Int, InIntRange n ∧
      serveAdd (addRequest (utf8 "-9223372036854775808") (utf8 "-9223372036854775808"))
        = ⟨200, utf8 "Результат: " ++ decimalRepr n⟩ :=
  C6_add_total_on_parsed
    (addRequest (utf8 "-9223372036854775808") (utf8 "-9223372036854775808"))
    (by decide) (by decide)

/-- C7: the `/add` handler answers `200` exactly when both query values are
an optional single `+` or `-` followed by one or more ASCII decimal digits
with a value in `[-2^63, 2^63 - 1]`, and `400` for every other pair of
values; the empty string, surrounding blanks, a decimal point, an exponent, a
hex prefix, underscores, a bare sign and non-ASCII digits are not such
values, a leading `+` and leading zeros are, and `a=+5&b=007` gives
`Результат: 12`. -/
theorem C7_status_characterised (r : Request) :
    ((serveAdd r).status = 200 ↔
        ValidInt (r.query.Get keyA) ∧ ValidInt (r.query.Get keyB)) ∧
      ((serveAdd r).status = 400 ↔
        ¬ (ValidInt (r.query.Get keyA) ∧ ValidInt (r.query.Get keyB))) ∧
      (¬ ValidInt (utf8 "") ∧ ¬ ValidInt (utf8 " 5") ∧ ¬ ValidInt (utf8 "5 ") ∧
        ¬ ValidInt (utf8 "1.5") ∧ ¬ ValidInt (utf8 "1e3") ∧ ¬ ValidInt (utf8 "0x10") ∧
        ¬ ValidInt (utf8 "1_000") ∧ ¬ ValidInt (utf8 "+") ∧ ¬ ValidInt (utf8 "-") ∧
        ¬ ValidInt (utf8 "٥") ∧ ¬ ValidInt (utf8 "５")) ∧
      ValidInt (utf8 "+5") ∧ ValidInt (utf8 "007") ∧
      serveAdd (addRequest (utf8 "+5") (utf8 "007")) = ⟨200, utf8 "Результат: 12"⟩ := by
  have key : (ValidInt (r.query.Get keyA) ∧ ValidInt (r.query.Get keyB) →
        (serveAdd r).status = 200) ∧
      (¬ (ValidInt (r.query.Get keyA) ∧ ValidInt (r.query.Get keyB)) →
        (serveAdd r).status = 400) := by
    constructor
    · intro h
      rw [serveAdd_ok r _ _ ((Atoi_spec _).1 h.1) ((Atoi_spec _).1 h.2)]
    · intro h
      rw [serveAdd_bad r (not_and_or.mp h)]
  refine ⟨⟨fun h => ?_, key.1⟩, ⟨fun h => ?_, key.2⟩, by decide, by decide, by decide,
    by decide⟩
  · by_contra hn
    rw [key.2 hn] at h
    exact absurd h (by decide)
  · intro hv
    rw [key.1 hv] at h
    exact absurd h (by decide)

/-- C8: when both `a` and `b` parse but their mathematical sum is outside
`[-2^63, 2^63 - 1]`, the `/add` handler still answers `200`, and the number
in the body is the unique integer of `[-2^63, 2^63 - 1]` congruent to `a + b`
modulo `2^64`; `a=9223372036854775807&b=1` gives
`Результат: -9223372036854775808`. -/
theorem C8_overflow_wraps (r : Request) (a b : Int)
    (ha : Atoi (r.query.Get keyA) = (a, none)) (hb : Atoi (r.query.Get keyB) = (b, none))
    (hov : ¬ InIntRange (a + b)) :
    (∃ n : Int, InIntRange n ∧ (2 : Int) ^ 64 ∣ n - (a + b) ∧
        (∀ m : Int, InIntRange m → (2 : Int) ^ 64 ∣ m - (a + b) → m = n) ∧
        n ≠ a + b ∧
        serveAdd r = ⟨200, utf8 "Результат: " ++ decimalRepr n⟩) ∧
      serveAdd (addRequest (utf8 "9223372036854775807") (utf8 "1"))
        = ⟨200, utf8 "Результат: -9223372036854775808"⟩ := by
  refine ⟨⟨addInt a b, wrapInt_inRange _, wrapInt_modEq _, ?_, ?_, serveAdd_ok r a b ha hb⟩,
    by decide⟩
  · intro m hm hdvd
    have h1 := wrapInt_inRange (a + b)
    have h2 := wrapInt_modEq (a + b)
    unfold addInt
    unfold InIntRange at hm h1
    omega
  · intro h
    apply hov
    rw [← h]
    exact wrapInt_inRange _

/-- C8 at `a=9223372036854775807&b=1`. -/
theorem C8_overflow_wraps_witness :
    (∃ n : Int, InIntRange n ∧ (2 : Int) ^ 64 ∣ n - (9223372036854775807 + 1) ∧
        (∀ m : Int, InIntRange m → (2 : Int) ^ 64 ∣ m - (9223372036854775807 + 1) → m = n) ∧
        n ≠ 9223372036854775807 + 1 ∧
        serveAdd (addRequest (utf8 "9223372036854775807") (utf8 "1"))
          = ⟨200, utf8 "Результат: " ++ decimalRepr n⟩) ∧
      serveAdd (addRequest (utf8 "9223372036854775807") (utf8 "1"))
        = ⟨200, utf8 "Результат: -9223372036854775808"⟩ :=
  C8_overflow_wraps (addRequest (utf8 "9223372036854775807") (utf8 "1"))
    9223372036854775807 1 (by decide) (by decide) (by decide)

/-- C9: the `/add` handler is symmetric in its operands: two requests of
which one has as `a` what the other has as `b`, and as `b` what the other has
as `a`, valid or not, get the identical status and body. -/
theorem C9_add_symmetric (r1 r2 : Request)
    (h1 : r1.query.Get keyA = r2.query.Get keyB) (h2 : r1.query.Get keyB = r2.query.Get keyA) :
    serveAdd r1 = serveAdd r2 := by
  rw [serveAdd_eq, serveAdd_eq, h1, h2]
  have hc : addInt (Atoi (r2.query.Get keyB)).1 (Atoi (r2.query.Get keyA)).1
      = addInt (Atoi (r2.query.Get keyA)).1 (Atoi (r2.query.Get keyB)).1 := by
    unfold addInt
    rw [Int.add_comm]
  rw [hc]
  by_cases h : (Atoi (r2.query.Get keyA)).2 ≠ none ∨ (Atoi (r2.query.Get keyB)).2 ≠ none
  · rw [if_pos h, if_pos (Or.symm h)]
  · rw [if_neg h, if_neg (fun h3 => h (Or.symm h3))]

/-- C9 at `a=7&b=abc` against `a=abc&b=7`. -/
theorem C9_add_symmetric_witness :
    serveAdd (addRequest (utf8 "7") (utf8 "abc")) = serveAdd (addRequest (utf8 "abc") (utf8 "7")) :=
  C9_add_symmetric (addRequest (utf8 "7") (utf8 "abc")) (addRequest (utf8 "abc") (utf8 "7"))
    (by decide) (by decide)

end GoCalc
